import Mathlib

/-!
Verification of the copy-on-write B+tree key-value store (package `core`).

The Go source is shallowly embedded: a Go byte slice becomes a `BNode`
structure carrying the slice length, capacity and a total byte function;
every primitive read/write mirrors the exact `encoding/binary` call in the
source, returning `none` where the Go code would panic (slice-bounds
violations).  Machine integers are `Nat` with explicit reductions modulo
2^16 / 2^64 where the Go code uses `uint16` / `uint64` arithmetic.
Fallible or recursive operations take explicit fuel and return `Option`.
-/

namespace DB

/-- Go `uint16` truncation. -/
def w16 (n : Nat) : Nat := n % 65536

/-- Go `uint16` subtraction `a - b` (wraps modulo 2^16). -/
def w16sub (a b : Nat) : Nat := (w16 a + 65536 - w16 b) % 65536

/-- Go `uint64` subtraction `a - b` (wraps modulo 2^64). -/
def w64sub (a b : Nat) : Nat :=
  (a % 18446744073709551616 + 18446744073709551616 - b % 18446744073709551616) %
    18446744073709551616

/-- Modelled from the spec: the constants file of the repository is not under
`src/` (only uses appear there).  Spec §3.1/§3.2: `PAGE_SIZE = 4096`,
header of 4 bytes, `MAX_KEY_SIZE = 1000`, `MAX_VAL_SIZE = 3000`. -/
def HEADER : Nat := 4

/-- Modelled from the spec: fixed page size, 4096 bytes (spec §3.1). -/
def BTREE_PAGE_SIZE : Nat := 4096

/-- Modelled from the spec: maximum key size 1000 (spec §3.2). -/
def BTREE_MAX_KEY_SIZE : Nat := 1000

/-- Modelled from the spec: maximum value size 3000 (spec §3.2). -/
def BTREE_MAX_VAL_SIZE : Nat := 3000

/-- Internal node type tag (source `b_node.go`). -/
def BNODE_NODE : Nat := 1

/-- Leaf node type tag (source `b_node.go`). -/
def BNODE_LEAF : Nat := 2

/-- Free-list node type tag (source free-list file). -/
def BNODE_FREE_LIST : Nat := 3

/-- Free-list node header size: type (2B) + size (2B) is folded into
`4 + 8 + 8` in the source (type+size, total, next). -/
def FREE_LIST_HEADER : Nat := 4 + 8 + 8

/-- Pointers that fit in one free-list node. -/
def FREE_LIST_CAP : Nat := (BTREE_PAGE_SIZE - FREE_LIST_HEADER) / 8

/-- A Go byte slice (the `data []byte` of a `BNode`): length, capacity, and
the underlying bytes as a total function.  Bytes at or beyond `cap` are never
observed by the embedded operations. -/
structure BNode where
  len : Nat
  cap : Nat
  data : Nat → Nat

/-- Source `make([]byte, n)`: a fresh zeroed buffer. -/
def mkBuf (n : Nat) : BNode := ⟨n, n, fun _ => 0⟩

/-- The zero value `BNode{}` (nil data slice). -/
def nilBNode : BNode := ⟨0, 0, fun _ => 0⟩

/-- Byte `k` of the little-endian encoding of `v`. -/
def leByte (v k : Nat) : Nat := (v / 256 ^ k) % 256

/-- Source `binary.LittleEndian.Uint16(b.data[pos:])`: the slice expression needs
`pos ≤ len`, and `Uint16` needs two bytes of length; Go panics otherwise. -/
def readU16 (b : BNode) (pos : Nat) : Option Nat :=
  if pos + 2 ≤ b.len then some (b.data pos + 256 * b.data (pos + 1)) else none

/-- Source `binary.LittleEndian.Uint16(b.data[lo:hi])`: the slice expression needs
`lo ≤ hi ≤ cap`, and `Uint16` needs `hi - lo ≥ 2`. -/
def readU16Range (b : BNode) (lo hi : Nat) : Option Nat :=
  if lo ≤ hi ∧ hi ≤ b.cap ∧ lo + 2 ≤ hi then
    some (b.data lo + 256 * b.data (lo + 1))
  else none

/-- Source `binary.LittleEndian.Uint64(b.data[pos:])`. -/
def readU64 (b : BNode) (pos : Nat) : Option Nat :=
  if pos + 8 ≤ b.len then
    some (b.data pos + 256 * b.data (pos + 1) + 256 ^ 2 * b.data (pos + 2) +
      256 ^ 3 * b.data (pos + 3) + 256 ^ 4 * b.data (pos + 4) +
      256 ^ 5 * b.data (pos + 5) + 256 ^ 6 * b.data (pos + 6) +
      256 ^ 7 * b.data (pos + 7))
  else none

/-- Source `binary.LittleEndian.Uint64(b.data[lo:hi])`: needs `hi - lo ≥ 8`. -/
def readU64Range (b : BNode) (lo hi : Nat) : Option Nat :=
  if lo ≤ hi ∧ hi ≤ b.cap ∧ lo + 8 ≤ hi then
    some (b.data lo + 256 * b.data (lo + 1) + 256 ^ 2 * b.data (lo + 2) +
      256 ^ 3 * b.data (lo + 3) + 256 ^ 4 * b.data (lo + 4) +
      256 ^ 5 * b.data (lo + 5) + 256 ^ 6 * b.data (lo + 6) +
      256 ^ 7 * b.data (lo + 7))
  else none

/-- Overwrite `count` bytes of `b` starting at `pos` with `f 0, f 1, …`. -/
def writeBytes (b : BNode) (pos count : Nat) (f : Nat → Nat) : BNode :=
  { b with data := fun i => if pos ≤ i ∧ i < pos + count then f (i - pos) else b.data i }

/-- Source `binary.LittleEndian.PutUint16(b.data[pos:], v)`. -/
def writeU16 (b : BNode) (pos v : Nat) : Option BNode :=
  if pos + 2 ≤ b.len then some (writeBytes b pos 2 (leByte v)) else none

/-- Source `binary.LittleEndian.PutUint16(b.data[lo:hi], v)`: needs `hi - lo ≥ 2`. -/
def writeU16Range (b : BNode) (lo hi v : Nat) : Option BNode :=
  if lo ≤ hi ∧ hi ≤ b.cap ∧ lo + 2 ≤ hi then some (writeBytes b lo 2 (leByte v)) else none

/-- Source `binary.LittleEndian.PutUint64(b.data[pos:], v)`. -/
def writeU64 (b : BNode) (pos v : Nat) : Option BNode :=
  if pos + 8 ≤ b.len then some (writeBytes b pos 8 (leByte v)) else none

/-- Source `binary.LittleEndian.PutUint64(b.data[lo:hi], v)`: needs `hi - lo ≥ 8`;
the source's `data[12:16]` slices only 4 bytes, so this returns `none`
exactly where Go panics with an index-out-of-range error. -/
def writeU64Range (b : BNode) (lo hi v : Nat) : Option BNode :=
  if lo ≤ hi ∧ hi ≤ b.cap ∧ lo + 8 ≤ hi then some (writeBytes b lo 8 (leByte v)) else none

/-- Extract `count` bytes starting at `pos` as a list (a Go sub-slice that is
subsequently only read). -/
def sliceBytes (b : BNode) (pos count : Nat) : List Nat :=
  (List.range count).map fun j => b.data (pos + j)

/-- Source `copy(dst.data[dpos:], src.data[lo:hi])`: Go `copy` transfers
`min (len dst - dpos) (hi - lo)` bytes and never panics, but the two slice
expressions require `dpos ≤ len dst` and `lo ≤ hi ≤ cap src`. -/
def bnCopy (dst : BNode) (dpos : Nat) (src : BNode) (lo hi : Nat) : Option BNode :=
  if dpos ≤ dst.len ∧ lo ≤ hi ∧ hi ≤ src.cap then
    some (writeBytes dst dpos (min (dst.len - dpos) (hi - lo)) fun j => src.data (lo + j))
  else none

/-- Source `node.btype()`. -/
def BNode.btype? (node : BNode) : Option Nat := readU16 node 0

/-- Source `node.nkeys()` reads `data[2:4]`. -/
def BNode.nkeys? (node : BNode) : Option Nat := readU16Range node 2 4

/-- Source `node.setHeader(btype, nkeys)`. -/
def BNode.setHeader? (node : BNode) (btype nkeys : Nat) : Option BNode := do
  let n1 ← writeU16Range node 0 2 btype
  writeU16Range n1 2 4 nkeys

/-- Source `node.getPtr(idx)`: `pos := HEADER + 8*idx` in `uint16` arithmetic. -/
def BNode.getPtr? (node : BNode) (idx : Nat) : Option Nat :=
  readU64 node (w16 (HEADER + 8 * idx))

/-- Source `node.setPtr(idx, val)`. -/
def BNode.setPtr? (node : BNode) (idx val : Nat) : Option BNode :=
  writeU64 node (w16 (HEADER + 8 * idx)) val

/-- Source `offsetPos(node, idx) = HEADER + 8*nkeys + 2*(idx-1)` (`uint16`). -/
def BNode.offsetPos? (node : BNode) (idx : Nat) : Option Nat := do
  let nk ← node.nkeys?
  pure (w16 (HEADER + 8 * nk + 2 * (w16sub idx 1)))

/-- Source `node.getOffset(idx)`: 0 at `idx = 0`, otherwise the stored `uint16`. -/
def BNode.getOffset? (node : BNode) (idx : Nat) : Option Nat :=
  if idx = 0 then some 0
  else do
    let p ← node.offsetPos? idx
    readU16 node p

/-- Source `node.setOffset(idx, offset)`. -/
def BNode.setOffset? (node : BNode) (idx offset : Nat) : Option BNode := do
  let p ← node.offsetPos? idx
  writeU16 node p offset

/-- Source `node.kvPos(idx) = HEADER + 8*nkeys + 2*nkeys + getOffset(idx)` (`uint16`). -/
def BNode.kvPos? (node : BNode) (idx : Nat) : Option Nat := do
  let nk ← node.nkeys?
  let off ← node.getOffset? idx
  pure (w16 (HEADER + 8 * nk + 2 * nk + off))

/-- Source `node.getKey(idx)`: reads `klen` at `kvPos`, then returns the
sub-slice `data[pos+4:][:klen]`.  The first slice expression needs
`pos+4 ≤ len`, the second `klen ≤ cap - (pos+4)`. -/
def BNode.getKey? (node : BNode) (idx : Nat) : Option BNode := do
  let pos ← node.kvPos? idx
  let klen ← readU16 node pos
  if pos + 4 ≤ node.len ∧ pos + 4 + klen ≤ node.cap then
    pure ⟨klen, node.cap - (pos + 4), fun i => node.data (pos + 4 + i)⟩
  else none

/-- Source `node.getVal(idx)`: reads `klen`, `vlen`, then returns the
sub-slice `data[pos+4+klen:][:vlen]` (`pos+4+klen` in `uint16`
arithmetic). -/
def BNode.getVal? (node : BNode) (idx : Nat) : Option BNode := do
  let pos ← node.kvPos? idx
  let klen ← readU16 node pos
  let vlen ← readU16 node (pos + 2)
  let vpos := w16 (pos + 4 + klen)
  if vpos ≤ node.len ∧ vpos + vlen ≤ node.cap then
    pure ⟨vlen, node.cap - vpos, fun i => node.data (vpos + i)⟩
  else none

/-- Source `node.nbytes() = node.kvPos(node.nkeys())`. -/
def BNode.nbytes? (node : BNode) : Option Nat := do
  let nk ← node.nkeys?
  node.kvPos? nk

/-- Lexicographic comparison of byte lists returning -1, 0 or 1; the
mathematical specification against which the slice-level `goBytesCompare`
is proved. -/
def lexCompare : List Nat → List Nat → Int
  | [], [] => 0
  | [], _ :: _ => -1
  | _ :: _, [] => 1
  | a :: as, b :: bs => if a < b then -1 else if b < a then 1 else lexCompare as bs

/-- The bytes of a slice as a list (observation used by specifications). -/
def BNode.toList (b : BNode) : List Nat := sliceBytes b 0 b.len

/-- The byte scan of `bytes.Compare`: compare positions `i, i+1, …` while
fuel (the number of shared positions left) remains, then order by length. -/
def cmpLoop (a b : BNode) : Nat → Nat → Int
  | _, 0 => if a.len < b.len then -1 else if b.len < a.len then 1 else 0
  | i, fuel + 1 =>
    if a.data i < b.data i then -1
    else if b.data i < a.data i then 1
    else cmpLoop a b (i + 1) fuel

/-- Go `bytes.Compare` on byte slices: lexicographic, -1/0/1. -/
def goBytesCompare (a b : BNode) : Int := cmpLoop a b 0 (min a.len b.len)

/-- The byte scan of `bytes.Equal`. -/
def eqLoop (a b : BNode) : Nat → Nat → Bool
  | _, 0 => true
  | i, fuel + 1 => if a.data i = b.data i then eqLoop a b (i + 1) fuel else false

/-- Go `bytes.Equal` on byte slices. -/
def goBytesEqual (a b : BNode) : Bool :=
  if a.len = b.len then eqLoop a b 0 a.len else false

/-- The scan loop of `nodeLookupLE`: `i` is the current index, `found` the
last index whose key compared `≤ key`; fuel is `nkeys - i`. -/
def lookupLoop (node : BNode) (key : BNode) : Nat → Nat → Nat → Option Nat
  | _, found, 0 => some found
  | i, found, fuel + 1 => do
    let ki ← node.getKey? i
    let cmp := goBytesCompare ki key
    let found' := if cmp ≤ 0 then i else found
    if cmp ≥ 0 then some found'
    else lookupLoop node key (i + 1) found' fuel

/-- Source `nodeLookupLE(node, key)`: scans keys `1 ≤ i < nkeys`, index 0 is never
compared. -/
def nodeLookupLE? (node : BNode) (key : BNode) : Option Nat := do
  let nkeys ← node.nkeys?
  lookupLoop node key 1 0 (nkeys - 1)

/-- The pointer-copy loop of `nodeAppendRange` (`for i := 0; i < n; i++`);
structural fuel is `n - i`. -/
def appendRangePtrs (old : BNode) (dstNew srcOld : Nat) : BNode → Nat → Nat → Option BNode
  | acc, _, 0 => some acc
  | acc, i, fuel + 1 => do
    let p ← old.getPtr? (w16 (srcOld + i))
    let acc' ← acc.setPtr? (w16 (dstNew + i)) p
    appendRangePtrs old dstNew srcOld acc' (i + 1) fuel

/-- The offset-copy loop of `nodeAppendRange` (`for i := 1; i <= n; i++`):
`offset := dstBegin + old.getOffset(srcOld+i) - srcBegin` in `uint16`. -/
def appendRangeOffsets (old : BNode) (dstNew srcOld dstBegin srcBegin : Nat) :
    BNode → Nat → Nat → Option BNode
  | acc, _, 0 => some acc
  | acc, i, fuel + 1 => do
    let so ← old.getOffset? (w16 (srcOld + i))
    let off := w16sub (w16 (dstBegin + so)) srcBegin
    let acc' ← acc.setOffset? (w16 (dstNew + i)) off
    appendRangeOffsets old dstNew srcOld dstBegin srcBegin acc' (i + 1) fuel

/-- Source `nodeAppendRange(new, old, dstNew, srcOld, n)`: copy `n` pointers,
recompute `n` offsets, and `copy` the KV-blob slice. -/
def nodeAppendRange? (new old : BNode) (dstNew srcOld n : Nat) : Option BNode :=
  if n = 0 then some new
  else do
    let new1 ← appendRangePtrs old dstNew srcOld new 0 n
    let dstBegin ← new1.getOffset? dstNew
    let srcBegin ← old.getOffset? srcOld
    let new2 ← appendRangeOffsets old dstNew srcOld dstBegin srcBegin new1 1 n
    let lo ← old.kvPos? srcOld
    let hi ← old.kvPos? (w16 (srcOld + n))
    let dpos ← new2.kvPos? dstNew
    bnCopy new2 dpos old lo hi

/-- Source `nodeAppendKV(new, idx, ptr, key, val)`. -/
def nodeAppendKV? (new : BNode) (idx ptr : Nat) (key val : BNode) : Option BNode := do
  let n1 ← new.setPtr? idx ptr
  let pos ← n1.kvPos? idx
  let n2 ← writeU16 n1 pos key.len
  let n3 ← writeU16 n2 (w16 (pos + 2)) val.len
  let n4 ← bnCopy n3 (w16 (pos + 4)) key 0 key.len
  let n5 ← bnCopy n4 (w16 (pos + 4 + w16 key.len)) val 0 val.len
  let off ← n5.getOffset? idx
  n5.setOffset? (w16 (idx + 1)) (w16 (off + 4 + w16 (key.len + val.len)))

/-- Source `leafInsert(new, old, idx, key, val)`: one more key than `old`. -/
def leafInsert? (new old : BNode) (idx : Nat) (key val : BNode) : Option BNode := do
  let nk ← old.nkeys?
  let n1 ← new.setHeader? BNODE_LEAF (w16 (nk + 1))
  let n2 ← nodeAppendRange? n1 old 0 0 idx
  let n3 ← nodeAppendKV? n2 idx 0 key val
  nodeAppendRange? n3 old (w16 (idx + 1)) idx (w16sub nk idx)

/-- Source `leafUpdate(new, old, idx, key, val)`: same number of keys. -/
def leafUpdate? (new old : BNode) (idx : Nat) (key val : BNode) : Option BNode := do
  let nk ← old.nkeys?
  let n1 ← new.setHeader? BNODE_LEAF nk
  let n2 ← nodeAppendRange? n1 old 0 0 idx
  let n3 ← nodeAppendKV? n2 idx 0 key val
  nodeAppendRange? n3 old (w16 (idx + 1)) (w16 (idx + 1)) (w16sub nk (idx + 1))

/-- The split-point search loop of `nodeSplit2`.  The Go loop mutates
`splitIdx` (a `uint16`, so decrementing past 0 wraps); explicit fuel bounds
the iteration count, `none` covering both the `panic` branch and a loop that
never exits. -/
def split2Loop (old : BNode) (nkeys nbytes : Nat) : Nat → Nat → Option Nat
  | _, 0 => none
  | splitIdx, fuel + 1 => do
    let kp ← old.kvPos? splitIdx
    let rightSize := w16sub nbytes kp
    if rightSize ≤ BTREE_PAGE_SIZE then
      if splitIdx = 1 then some 1
      else split2Loop old nkeys nbytes (w16sub splitIdx 1) fuel
    else if splitIdx = nkeys then none
    else some (w16 (splitIdx + 1))

/-- Source `nodeSplit2(left, right, old)`: find the split index (starting from
`nkeys - 1`), then set headers and copy the two ranges. -/
def nodeSplit2? (left right old : BNode) : Option (BNode × BNode) := do
  let nk ← old.nkeys?
  let nb ← old.nbytes?
  let s ← split2Loop old nk nb (w16sub nk 1) 65536
  let bt ← old.btype?
  let l1 ← left.setHeader? bt s
  let r1 ← right.setHeader? bt (w16sub nk s)
  let l2 ← nodeAppendRange? l1 old 0 0 s
  let r2 ← nodeAppendRange? r1 old 0 s (w16sub nk s)
  pure (l2, r2)

/-- Source `nodeSplit3(old)`: returns the count (1 to 3) and the produced nodes.
`old.data = old.data[:BTREE_PAGE_SIZE]` re-slices the length (capacity
permitting), keeping the underlying bytes. -/
def nodeSplit3? (old : BNode) : Option (Nat × List BNode) := do
  let nb ← old.nbytes?
  if nb ≤ BTREE_PAGE_SIZE then
    if BTREE_PAGE_SIZE ≤ old.cap then pure (1, [{ old with len := BTREE_PAGE_SIZE }])
    else none
  else
    let (l, r) ← nodeSplit2? (mkBuf (2 * BTREE_PAGE_SIZE)) (mkBuf BTREE_PAGE_SIZE) old
    let lb ← l.nbytes?
    if lb ≤ BTREE_PAGE_SIZE then
      if BTREE_PAGE_SIZE ≤ l.cap then pure (2, [{ l with len := BTREE_PAGE_SIZE }, r])
      else none
    else do
      let (ll, mid) ← nodeSplit2? (mkBuf BTREE_PAGE_SIZE) (mkBuf BTREE_PAGE_SIZE) l
      pure (3, [ll, mid, r])

/-- The in-memory page store behind the three `BTree` callbacks, following
the repository's own test harness (`newC`): `get` requires the page to be
present, `new` stores the page under a fresh nonzero key, `del` requires
presence and removes it.  Page number `i + 1` is slot `i`. -/
structure Store where
  pages : List (Option BNode)

/-- Source `tree.get(ptr)`: dereference, `none` when absent (the harness asserts). -/
def stGet (s : Store) (ptr : Nat) : Option BNode :=
  if ptr = 0 then none else s.pages.getD (ptr - 1) none

/-- Source `tree.new(node)`: allocate a fresh page number. -/
def stNew (s : Store) (node : BNode) : Nat × Store :=
  (s.pages.length + 1, ⟨s.pages ++ [some node]⟩)

/-- Source `tree.del(ptr)`: deallocate (`none` when absent, as the harness asserts). -/
def stDel (s : Store) (ptr : Nat) : Option Store :=
  match stGet s ptr with
  | some _ => some ⟨s.pages.set (ptr - 1) none⟩
  | none => none

/-- The per-kid loop shared by `nodeReplaceKidN` and the root rebuild in
`Insert`: allocate each kid and append `(ptr, kid.getKey(0), nil)`. -/
def replaceKidsLoop : Store → BNode → Nat → List BNode → Option (Store × BNode)
  | st, acc, _, [] => some (st, acc)
  | st, acc, i, kid :: rest => do
    let (ptr, st') := stNew st kid
    let k0 ← kid.getKey? 0
    let acc' ← nodeAppendKV? acc i ptr k0 nilBNode
    replaceKidsLoop st' acc' (w16 (i + 1)) rest

/-- Source `nodeReplaceKidN(tree, new, old, idx, kids...)`. -/
def nodeReplaceKidN? (st : Store) (new old : BNode) (idx : Nat) (kids : List BNode) :
    Option (Store × BNode) := do
  let inc := kids.length
  let nk ← old.nkeys?
  let n1 ← new.setHeader? BNODE_NODE (w16 (nk + inc - 1))
  let n2 ← nodeAppendRange? n1 old 0 0 idx
  let (st', n3) ← replaceKidsLoop st n2 idx kids
  let n4 ← nodeAppendRange? n3 old (w16 (idx + inc)) (w16 (idx + 1)) (w16sub nk (idx + 1))
  pure (st', n4)

/-- Source `treeInsert(tree, node, key, val)`: allocates a `2*PAGE_SIZE`
working buffer; leaf update/insert, or descent into a kid.  The body of the
helper `nodeInsert(tree, new, node, idx, key, val)` — fetch and deallocate
the kid, insert recursively, split the result with `nodeSplit3`, relink via
`nodeReplaceKidN` — is inlined in the internal-node branch so that the
recursion is structural on the fuel (which bounds the descent depth). -/
def treeInsert? : Nat → Store → BNode → BNode → BNode → Option (Store × BNode)
  | 0, _, _, _, _ => none
  | fuel + 1, st, node, key, val => do
    let new0 := mkBuf (2 * BTREE_PAGE_SIZE)
    let idx ← nodeLookupLE? node key
    let bt ← node.btype?
    if bt = BNODE_LEAF then
      do
        let k ← node.getKey? idx
        if goBytesEqual key k then do
          let r ← leafUpdate? new0 node idx key val
          pure (st, r)
        else do
          let r ← leafInsert? new0 node (w16 (idx + 1)) key val
          pure (st, r)
    else if bt = BNODE_NODE then do
      let kptr ← node.getPtr? idx
      let knode ← stGet st kptr
      let st1 ← stDel st kptr
      let (st2, kn) ← treeInsert? fuel st1 knode key val
      let (_, parts) ← nodeSplit3? kn
      nodeReplaceKidN? st2 new0 node idx parts
    else none

/-- Source `BTree.Insert(key, val)` (with the page store made explicit): returns the
new root page number. -/
def btInsert? (fuel : Nat) (st : Store) (root : Nat) (key val : BNode) :
    Option (Store × Nat) :=
  if root = 0 then do
    let r1 ← (mkBuf BTREE_PAGE_SIZE).setHeader? BNODE_LEAF 2
    let r2 ← nodeAppendKV? r1 0 0 nilBNode nilBNode
    let r3 ← nodeAppendKV? r2 1 0 key val
    let (ptr, st') := stNew st r3
    pure (st', ptr)
  else do
    let node ← stGet st root
    let st1 ← stDel st root
    let (st2, inserted) ← treeInsert? fuel st1 node key val
    let (nsplit, parts) ← nodeSplit3? inserted
    if nsplit > 1 then do
      let r1 ← (mkBuf BTREE_PAGE_SIZE).setHeader? BNODE_NODE nsplit
      let (st3, r2) ← replaceKidsLoop st2 r1 0 parts
      let (ptr, st4) := stNew st3 r2
      pure (st4, ptr)
    else do
      let p ← parts.head?
      let (ptr, st3) := stNew st2 p
      pure (st3, ptr)

/-- Source `treeGet(tree, node, key)`: recursive lookup. -/
def treeGet? : Nat → Store → BNode → BNode → Option (BNode × Bool)
  | 0, _, _, _ => none
  | fuel + 1, st, node, key => do
    let idx ← nodeLookupLE? node key
    let bt ← node.btype?
    if bt = BNODE_LEAF then do
      let k ← node.getKey? idx
      if goBytesEqual key k then do
        let v ← node.getVal? idx
        pure (v, true)
      else pure (nilBNode, false)
    else if bt = BNODE_NODE then do
      let kptr ← node.getPtr? idx
      let knode ← stGet st kptr
      treeGet? fuel st knode key
    else none

/-- Source `BTree.Get(key)`. -/
def btGet? (fuel : Nat) (st : Store) (root : Nat) (key : BNode) :
    Option (BNode × Bool) :=
  if root = 0 then some (nilBNode, false)
  else do
    let node ← stGet st root
    treeGet? fuel st node key

/-- Source `flnSize(node)` reads `data[2:4]`. -/
def flnSize? (node : BNode) : Option Nat := readU16Range node 2 4

/-- Source `flnSetTotal(node, total)` writes the 8-byte total at `data[4:12]`. -/
def flnSetTotal? (node : BNode) (total : Nat) : Option BNode :=
  writeU64Range node 4 12 total

/-- Source `flnNext(node)` as written: `binary.LittleEndian.Uint64(node.data[12:16])`
— a 4-byte sub-slice passed to an 8-byte read. -/
def flnNext? (node : BNode) : Option Nat := readU64Range node 12 16

/-- Source `flnPtr(node, idx)` reads the `uint64` at `FREE_LIST_HEADER + 8*idx`
(plain `int` arithmetic in the source). -/
def flnPtr? (node : BNode) (idx : Nat) : Option Nat :=
  readU64 node (FREE_LIST_HEADER + 8 * idx)

/-- Source `flnSetHeader(node, size, next)`: writes `data[2:4]`, then
`binary.LittleEndian.PutUint64(node.data[12:16], next)`. -/
def flnSetHeader? (node : BNode) (size next : Nat) : Option BNode := do
  let n1 ← writeU16Range node 2 4 size
  writeU64Range n1 12 16 next

/-- Source `flnSetPtr(node, idx, ptr)`. -/
def flnSetPtr? (node : BNode) (idx ptr : Nat) : Option BNode :=
  writeU64 node (FREE_LIST_HEADER + 8 * idx) ptr

/-- The walk inside `FreeList.Total`: the loop runs `listNodesTotal` times,
each step adding `flnSize(node)` and following `flnNext(node)`. -/
def flTotalLoop (get : Nat → Option BNode) : Nat → BNode → Nat → Option Nat
  | 0, _, total => some total
  | k + 1, node, total => do
    let sz ← flnSize? node
    let next ← flnNext? node
    let node' ← get next
    flTotalLoop get k node' (total + sz)

/-- Source `FreeList.Total()` as implemented: reads the 8-byte field at
`head.data[4:12]` and then walks that many list nodes, summing their
`flnSize`. -/
def flTotal? (get : Nat → Option BNode) (head : Nat) : Option Nat := do
  let hd ← get head
  let listNodesTotal ← readU64Range hd 4 12
  flTotalLoop get listNodesTotal hd 0

/-- The walk of `FreeList.Get`: while `flnSize(node) ≤ topn`, subtract and
advance along `flnNext`. -/
def flGetLoop (get : Nat → Option BNode) : Nat → BNode → Nat → Option Nat
  | 0, _, _ => none
  | fuel + 1, node, topn => do
    let sz ← flnSize? node
    if sz ≤ topn then do
      let next ← flnNext? node
      let node' ← get next
      flGetLoop get fuel node' (topn - sz)
    else flnPtr? node (sz - topn - 1)

/-- Source `FreeList.Get(topn)`. -/
def flGet? (get : Nat → Option BNode) (head topn fuel : Nat) : Option Nat := do
  let node ← get head
  flGetLoop get fuel node topn

/-- The callback fields of the `FreeList` struct (`get`, `new`, `use`),
acting on the pager state `σ`. -/
structure FLCallbacks (σ : Type) where
  get : σ → Nat → Option BNode
  new : σ → BNode → Option (Nat × σ)
  use : σ → Nat → BNode → Option σ

/-- Phase-2 harvest loop of `FreeList.Update`:
`for remain > 0 && len(reuse)*FREE_LIST_CAP < len(freed)+remain`
(decrement `remain`, then append `flnPtr(node, remain)` to `reuse`). -/
def harvestLoop (node : BNode) (freedLen : Nat) : Nat → List Nat → Option (Nat × List Nat)
  | 0, reuse => some (0, reuse)
  | remain + 1, reuse =>
    if reuse.length * FREE_LIST_CAP < freedLen + (remain + 1) then do
      let p ← flnPtr? node remain
      harvestLoop node freedLen remain (reuse ++ [p])
    else some (remain + 1, reuse)

/-- Phase-2 move loop: `for i := 0; i < remain; i++` append
`flnPtr(node, i)` to `freed`. -/
def moveLoop (node : BNode) : Nat → Nat → List Nat → Option (List Nat)
  | _, 0, freed => some freed
  | i, k + 1, freed => do
    let p ← flnPtr? node i
    moveLoop node (i + 1) k (freed ++ [p])

/-- The head-draining loop of `FreeList.Update` (phases 1 and 2): while
`fl.head != 0 && len(reuse)*FREE_LIST_CAP < len(freed)`, recycle the head
node, pop whole or partial contents, and advance `fl.head = flnNext(node)`.
Returns `(head, popn, freed, reuse, total)`. -/
def flDrainLoop (get : Nat → Option BNode) :
    Nat → Nat → Nat → List Nat → List Nat → Nat →
    Option (Nat × Nat × List Nat × List Nat × Nat)
  | 0, _, _, _, _, _ => none
  | fuel + 1, head, popn, freed, reuse, total =>
    if head ≠ 0 ∧ reuse.length * FREE_LIST_CAP < freed.length then do
      let node ← get head
      let freed1 := freed ++ [head]
      let sz ← flnSize? node
      if popn ≥ sz then do
        let next ← flnNext? node
        flDrainLoop get fuel next (popn - sz) freed1 reuse (w64sub total sz)
      else do
        let (remain, reuse1) ← harvestLoop node freed1.length (sz - popn) reuse
        let freed2 ← moveLoop node 0 remain freed1
        let next ← flnNext? node
        flDrainLoop get fuel next 0 freed2 reuse1 (w64sub total sz)
    else some (head, popn, freed, reuse, total)

/-- The per-list-node write loop of `flPush`
(`for i, ptr := range freed[:size]`). -/
def flSetPtrsLoop : BNode → Nat → List Nat → Option BNode
  | n, _, [] => some n
  | n, i, p :: rest => do
    let n' ← flnSetPtr? n i p
    flSetPtrsLoop n' (i + 1) rest

/-- Source `flPush(fl, freed, reuse)`: chunk `freed` into fresh list nodes of at
most `FREE_LIST_CAP` pointers, hosting each on a `reuse` page when one is
available and otherwise on a page appended via the `new` callback; the
freshly built node becomes the new head. -/
def flPushLoop (cb : FLCallbacks σ) : Nat → σ → Nat → List Nat → List Nat → Option (σ × Nat)
  | 0, st, head, freed, _ => if freed.isEmpty then some (st, head) else none
  | fuel + 1, st, head, freed, reuse =>
    if freed.isEmpty then some (st, head)
    else do
      let size := min freed.length FREE_LIST_CAP
      let n1 ← flnSetHeader? (mkBuf BTREE_PAGE_SIZE) size head
      let n2 ← flSetPtrsLoop n1 0 (freed.take size)
      let freed' := freed.drop size
      match reuse with
      | p :: rest => do
        let st' ← cb.use st p n2
        flPushLoop cb fuel st' p freed' rest
      | [] => do
        let (p, st') ← cb.new st n2
        flPushLoop cb fuel st' p freed' []

/-- Source `FreeList.Update(popn, freed)`: early return when there is nothing to
do; otherwise read `Total()`, drain, push, and store the new total
(`total + len(freed)`) into the new head.  The final component is the
updated head-node image (in Go the write mutates the shared page). -/
def flUpdate? (cb : FLCallbacks σ) (st : σ) (head popn : Nat) (freed : List Nat)
    (fuel : Nat) : Option (σ × Nat × BNode) :=
  if popn = 0 ∧ freed.isEmpty then some (st, head, nilBNode)
  else do
    let total ← flTotal? (cb.get st) head
    let (head1, _popn1, freed1, reuse1, total1) ←
      flDrainLoop (cb.get st) fuel head popn freed [] total
    let (st2, head2) ← flPushLoop cb fuel st head1 freed1 reuse1
    let hd ← cb.get st2 head2
    let hd' ← flnSetTotal? hd (total1 + freed1.length)
    pure (st2, head2, hd')

/-- One mmap chunk: length and contents. -/
structure Chunk where
  len : Nat
  data : Nat → Nat

/-- The chunk walk of `pageGetMapped`: track the running page range and
return the 4 KiB slice of the containing chunk (`none` models
`panic("bad ptr")`). -/
def pageGetMappedLoop : List Chunk → Nat → Nat → Option BNode
  | [], _, _ => none
  | c :: rest, start, ptr =>
    let endp := start + c.len / BTREE_PAGE_SIZE
    if ptr < endp then
      let offset := BTREE_PAGE_SIZE * (ptr - start)
      some ⟨BTREE_PAGE_SIZE, c.len - offset, fun i => c.data (offset + i)⟩
    else pageGetMappedLoop rest endp ptr

/-- Source `pageGetMapped(db, ptr)`. -/
def pageGetMapped? (chunks : List Chunk) (ptr : Nat) : Option BNode :=
  pageGetMappedLoop chunks 0 ptr

/-- The mutable `KV` state: mmap chunks, the `updates` buffer (an entry is
either a page image or `none`, the nil tombstone written by `pageDel`),
the allocation counters and the tree root / free-list head. -/
structure KV where
  chunks : List Chunk
  updates : Nat → Option (Option BNode)
  flushed : Nat
  nfree : Nat
  nappend : Nat
  root : Nat
  freeHead : Nat

/-- Source `pageGet(ptr)`: any `updates` entry — live page or nil tombstone — is
returned as `BNode{page}`; only a missing entry falls through to the mmap
resolution. -/
def pageGet? (db : KV) (ptr : Nat) : Option BNode :=
  match db.updates ptr with
  | some page =>
    some (match page with
          | some b => b
          | none => nilBNode)
  | none => pageGetMapped? db.chunks ptr

/-- Source `pageDel(ptr)`: `updates[ptr] = nil`. -/
def pageDel (db : KV) (ptr : Nat) : KV :=
  { db with updates := fun p => if p = ptr then some none else db.updates p }

/-- Source `pageUse(ptr, node)`: overwrite the buffered image for a chosen page. -/
def pageUse (db : KV) (ptr : Nat) (node : BNode) : KV :=
  { db with updates := fun p => if p = ptr then some (some node) else db.updates p }

/-- Source `pageAppend(node)`: the dedicated append-only FreeList callback
(`ptr = flushed + nappend; nappend++`). -/
def pageAppend (db : KV) (node : BNode) : Nat × KV :=
  let ptr := db.flushed + db.nappend
  (ptr, { db with nappend := db.nappend + 1,
                  updates := fun p => if p = ptr then some (some node) else db.updates p })

/-- Source `pageNew(node)`: when `nfree < free.Total()`, take `free.Get(nfree)`;
otherwise append.  `free.Total` and `free.Get` are the embedded source
implementations, reading pages through `pageGet`. -/
def pageNew? (db : KV) (node : BNode) : Option (Nat × KV) := do
  let t ← flTotal? (fun p => pageGet? db p) db.freeHead
  if db.nfree < t then do
    let ptr ← flGet? (fun p => pageGet? db p) db.freeHead db.nfree 65536
    pure (ptr, { db with nfree := db.nfree + 1,
                         updates := fun p => if p = ptr then some (some node) else db.updates p })
  else
    let ptr := db.flushed + db.nappend
    pure (ptr, { db with nappend := db.nappend + 1,
                         updates := fun p => if p = ptr then some (some node) else db.updates p })

/-- Source `KV.Open` wires the free-list allocation callback to `pageNew`
(source line `db.free.new = db.pageNew`), not to the append-only
`pageAppend`. -/
def openFreeNewCallback : KV → BNode → Option (Nat × KV) := pageNew?

/-- The doubling loop of `mmapInit` (`for mmapSize < int(fi.Size())`). -/
def mmapSizeLoop : Nat → Nat → Nat → Nat
  | 0, m, _ => m
  | fuel + 1, m, size => if m < size then mmapSizeLoop fuel (m * 2) size else m

/-- Source `mmapInit(fp)`: reject a size that is not a multiple of the page size;
otherwise map `max(64 MiB, doubled size)` bytes (bytes past the end of the
file are modelled as zero; touching them would fault at runtime). -/
def mmapInit? (fileSize : Nat) (file : Nat → Nat) : Option (Nat × Chunk) :=
  if fileSize % BTREE_PAGE_SIZE ≠ 0 then none
  else
    let m := mmapSizeLoop fileSize (64 * 1048576) fileSize
    some (fileSize, ⟨m, fun i => if i < fileSize then file i else 0⟩)

/-- Signature `DB_SIG` (the ASCII bytes of the 16-character tag). -/
def DB_SIG_BYTES : List Nat := [66, 117, 105, 108, 100, 89, 111, 117, 114, 79, 119, 110, 68, 66, 48, 53]

/-- Read a `uint64` at `pos` of a chunk. -/
def chunkU64? (c : Chunk) (pos : Nat) : Option Nat :=
  if pos + 8 ≤ c.len then
    some (c.data pos + 256 * c.data (pos + 1) + 256 ^ 2 * c.data (pos + 2) +
      256 ^ 3 * c.data (pos + 3) + 256 ^ 4 * c.data (pos + 4) +
      256 ^ 5 * c.data (pos + 5) + 256 ^ 6 * c.data (pos + 6) +
      256 ^ 7 * c.data (pos + 7))
  else none

/-- First `n` bytes of a chunk. -/
def chunkBytes (c : Chunk) (pos n : Nat) : List Nat :=
  (List.range n).map fun j => c.data (pos + j)

/-- Source `masterLoad(db)`: on an empty file set `flushed = 1` (page 0 reserved);
otherwise read `root`, `page_used` and the free-list head from page 0 and
validate: signature match, `1 ≤ used ≤ fileSize/PAGE_SIZE`, `root < used`.
Returns `(root, flushed, freeHead)`. -/
def masterLoad? (fileSize : Nat) (c : Chunk) : Option (Nat × Nat × Nat) :=
  if fileSize = 0 then some (0, 1, 0)
  else do
    let root ← chunkU64? c 16
    let used ← chunkU64? c 24
    let freeListPtr ← chunkU64? c 32
    if chunkBytes c 0 16 ≠ DB_SIG_BYTES then none
    else if ¬ (1 ≤ used ∧ used ≤ fileSize / BTREE_PAGE_SIZE) then none
    else if ¬ (root < used) then none
    else some (root, used, freeListPtr)

/-- Source `KV.Open` on a file image: initial mmap, callback wiring, the free-list
head initialization (`flnSetHeader(headNode, 0, 0)` followed by
`db.free.head = db.free.new(headNode)` with `free.new = pageNew`), then
`masterLoad`. -/
def kvOpen? (fileSize : Nat) (file : Nat → Nat) : Option KV := do
  let (sz, chunk) ← mmapInit? fileSize file
  let db0 : KV := ⟨[chunk], fun _ => none, 0, 0, 0, 0, 0⟩
  let headNode ← flnSetHeader? (mkBuf BTREE_PAGE_SIZE) 0 0
  let (hp, db1) ← openFreeNewCallback db0 headNode
  let db2 := { db1 with freeHead := hp }
  let (root, flushed, freeHead) ← masterLoad? sz chunk
  if sz = 0 then pure { db2 with flushed := flushed }
  else pure { db2 with root := root, flushed := flushed, freeHead := freeHead }

/-- Relation: `a` is lexicographically at most `b` (`lexCompare a b ≤ 0`). -/
def bytesLe (a b : List Nat) : Prop := lexCompare a b ≤ 0

/-- Relation: `a` is lexicographically below `b` (`lexCompare a b = -1`). -/
def bytesLt (a b : List Nat) : Prop := lexCompare a b = -1

/-- The byte list of positions `i, i+1, …` of a slice (specification
helper relating the indexed comparison loop to `lexCompare`). -/
def suffixList (x : BNode) (i : Nat) : List Nat :=
  (List.range (x.len - i)).map fun j => x.data (i + j)

instance (a b : List Nat) : Decidable (bytesLe a b) := by unfold bytesLe; infer_instance

instance (a b : List Nat) : Decidable (bytesLt a b) := by unfold bytesLt; infer_instance

/-- Key "a" (one byte) for the concrete executions. -/
def keyA : BNode := ⟨1, 1, fun _ => 97⟩

/-- Key "b" (one byte). -/
def keyB : BNode := ⟨1, 1, fun _ => 98⟩

/-- Key "c" (one byte). -/
def keyC : BNode := ⟨1, 1, fun _ => 99⟩

/-- A 15-byte value (within `BTREE_MAX_VAL_SIZE`). -/
def valSmall : BNode := ⟨15, 15, fun _ => 120⟩

/-- A 2035-byte value (within `BTREE_MAX_VAL_SIZE`). -/
def valBig : BNode := ⟨2035, 2035, fun _ => 120⟩

/-- Store and root after `Insert("a", valSmall); Insert("b", valBig)`
starting from the empty tree. -/
def c1AfterTwo : Option (Store × Nat) := do
  let (s1, r1) ← btInsert? 10 ⟨[]⟩ 0 keyA valSmall
  btInsert? 10 s1 r1 keyB valBig

/-- Store and root after the third insert, `Insert("c", valBig)`. -/
def c1AfterThree : Option (Store × Nat) := do
  let (s2, r2) ← c1AfterTwo
  btInsert? 10 s2 r2 keyC valBig

/-- Run `BTree.Get(k)` on the three-insert tree. -/
def c1Get (k : BNode) : Option (BNode × Bool) := do
  let (s3, r3) ← c1AfterThree
  btGet? 10 s3 r3 k

/-- Observation of `c1Get`, reduced to value length and found flag. -/
def c1GetLen (k : BNode) : Option (Nat × Bool) :=
  (c1Get k).map fun p => (p.1.len, p.2)

/-- The oversized node produced by `treeInsert` when inserting the third
key into the stored two-key leaf (the root page of `c1AfterTwo`),
following the non-empty branch of `Insert`. -/
def c2Inserted : Option BNode := do
  let (s2, r2) ← c1AfterTwo
  let leaf ← stGet s2 r2
  let s2' ← stDel s2 r2
  let (_, inserted) ← treeInsert? 10 s2' leaf keyC valBig
  pure inserted

/-- Size in bytes of the `treeInsert` result. -/
def c2InsertedSize : Option Nat := do
  let n ← c2Inserted
  n.nbytes?

/-- Outcome of `nodeSplit3` on the `treeInsert` result: the count and the
`nbytes()` of each returned node. -/
def c2SplitSizes : Option (Nat × List (Option Nat)) := do
  let n ← c2Inserted
  let (nsplit, parts) ← nodeSplit3? n
  pure (nsplit, parts.map fun p => p.nbytes?)

/-- The right split part as actually published through the tree's `new`
callback by the third insert: `Insert` stores the left part (page 3), the
right part (page 4) and the new root (page 5); pages 1 and 2 held the two
earlier root leaves. -/
def c2PublishedRight : Option BNode := do
  let (s3, _) ← c1AfterThree
  stGet s3 4

/-- Observation of the published right part: its buffer length together
with its `nbytes()`. -/
def c2PublishedRightObs : Option (Nat × Option Nat) :=
  c2PublishedRight.map fun b => (b.len, b.nbytes?)

/-- A one-entry free-list head node: size 1 (bytes 2..4), stored total 1
(bytes 4..12), next 0 (bytes 12..20), first pointer 9 (bytes 20..28). -/
def flHeadNode : BNode :=
  ⟨BTREE_PAGE_SIZE, BTREE_PAGE_SIZE,
    fun i => if i = 2 then 1 else if i = 4 then 1 else if i = 20 then 9 else 0⟩

/-- Page lookup for the free-list fixtures: page 1 holds `flHeadNode`. -/
def flFixtureGet : Nat → Option BNode := fun p => if p = 1 then some flHeadNode else none

/-- FreeList callbacks for the `Update` fixture: `get` resolves page 1 to
the head node; `new` and `use` answer trivially (they are never reached). -/
def c4cb : FLCallbacks Unit :=
  ⟨fun _ p => flFixtureGet p, fun _ _ => some (50, ()), fun _ _ _ => some ()⟩

/-- KV state whose free list is the one-node fixture: `flushed = 10`, no
pages consumed or appended yet, free head at page 1. -/
def c3db : KV :=
  ⟨[], fun p => if p = 1 then some (some flHeadNode) else none, 10, 0, 0, 0, 1⟩

/-- A mapped chunk of 8 pages whose bytes all read 7. -/
def c7chunk : Chunk := ⟨32768, fun _ => 7⟩

/-- KV fixture for the `pageGet` claims: one chunk, no buffered updates. -/
def c7db : KV := ⟨[c7chunk], fun _ => none, 0, 0, 0, 0, 0⟩

/-- A well-formed one-page file image: master page with the correct
signature, root 0, `page_used` 1, free head 0. -/
def goodFile : Nat → Nat := fun i =>
  if i < 16 then DB_SIG_BYTES.getD i 0 else if i = 24 then 1 else 0

/-- Outcome of `mmapInit` followed by `masterLoad` alone on `goodFile`. -/
def c9MasterCheck : Option (Nat × Nat × Nat) := do
  let (sz, c) ← mmapInit? 4096 goodFile
  masterLoad? sz c

/-- A concrete three-key node for the lookup witness: sentinel at index 0,
"b" at index 1, "d" at index 2. -/
def c8node : BNode :=
  ⟨48, 48, fun i =>
    [2, 0, 3, 0,
     0, 0, 0, 0, 0, 0, 0, 0,
     0, 0, 0, 0, 0, 0, 0, 0,
     0, 0, 0, 0, 0, 0, 0, 0,
     4, 0, 9, 0, 14, 0,
     0, 0, 0, 0,
     1, 0, 0, 0, 98,
     1, 0, 0, 0, 100].getD i 0⟩

/-- The key sequence of `c8node` at indices 1 and 2. -/
def c8keys : Nat → List Nat := fun i =>
  if i = 1 then [98] else if i = 2 then [100] else []

/-- Search key "c" (byte 99) as a slice, for the lookup witness. -/
def key99 : BNode := ⟨1, 1, fun _ => 99⟩

theorem lexCompare_cases : ∀ a b : List Nat,
    lexCompare a b = -1 ∨ lexCompare a b = 0 ∨ lexCompare a b = 1
  | [], [] => by simp [lexCompare]
  | [], _ :: _ => by simp [lexCompare]
  | _ :: _, [] => by simp [lexCompare]
  | a :: as, b :: bs => by
    simp only [lexCompare]
    split_ifs with h1 h2
    · simp
    · simp
    · exact lexCompare_cases as bs

theorem lexCompare_eq_zero_iff : ∀ a b : List Nat, lexCompare a b = 0 ↔ a = b
  | [], [] => by simp [lexCompare]
  | [], _ :: _ => by simp [lexCompare]
  | _ :: _, [] => by simp [lexCompare]
  | a :: as, b :: bs => by
    simp only [lexCompare, List.cons.injEq]
    split_ifs with h1 h2
    · constructor
      · intro h; norm_num at h
      · rintro ⟨rfl, -⟩; omega
    · constructor
      · intro h; norm_num at h
      · rintro ⟨rfl, -⟩; omega
    · rw [lexCompare_eq_zero_iff as bs]
      have hab : a = b := by omega
      simp [hab]

theorem lexCompare_antisym : ∀ a b : List Nat,
    lexCompare b a = -lexCompare a b
  | [], [] => by simp [lexCompare]
  | [], _ :: _ => by simp [lexCompare]
  | _ :: _, [] => by simp [lexCompare]
  | a :: as, b :: bs => by
    simp only [lexCompare]
    split_ifs <;> first | omega | exact lexCompare_antisym as bs

theorem lexCompare_trans : ∀ a b c : List Nat,
    lexCompare a b = -1 → lexCompare b c = -1 → lexCompare a c = -1
  | [], [], _, h1, _ => by simp [lexCompare] at h1
  | [], _ :: _, [], _, h2 => by simp [lexCompare] at h2
  | [], _ :: _, _ :: _, _, _ => by simp [lexCompare]
  | _ :: _, [], _, h1, _ => by simp [lexCompare] at h1
  | _ :: _, _ :: _, [], _, h2 => by simp [lexCompare] at h2
  | a :: as, b :: bs, c :: cs, h1, h2 => by
    simp only [lexCompare] at h1 h2 ⊢
    split_ifs at h1 h2 ⊢ <;>
      first
        | rfl
        | omega
        | (exact lexCompare_trans as bs cs h1 h2)

/-- Chaining `bytesLt` with `bytesLe` yields `bytesLt`. -/
theorem bytesLt_of_lt_of_le {a b c : List Nat} (h1 : bytesLt a b) (h2 : bytesLe b c) :
    bytesLt a c := by
  rcases lexCompare_cases b c with h | h | h
  · exact lexCompare_trans a b c h1 h
  · rwa [(lexCompare_eq_zero_iff b c).mp h] at h1
  · unfold bytesLe at h2; rw [h] at h2; norm_num at h2

/-- A strictly larger key is not `bytesLe`. -/
theorem not_bytesLe_of_lt {a b : List Nat} (h : bytesLt a b) : ¬ bytesLe b a := by
  intro hle
  have := lexCompare_antisym a b
  rw [h] at this
  simp only [bytesLe, this] at hle
  norm_num at hle

/-- Decomposition of `suffixList` at a position inside the slice. -/
theorem suffixList_cons (x : BNode) (i : Nat) (h : i < x.len) :
    suffixList x i = x.data i :: suffixList x (i + 1) := by
  unfold suffixList
  obtain ⟨m, hm⟩ : ∃ m, x.len - i = m + 1 := ⟨x.len - i - 1, by omega⟩
  have hm' : x.len - (i + 1) = m := by omega
  rw [hm, hm', List.range_succ_eq_map, List.map_cons, List.map_map]
  refine congrArg₂ List.cons (by simp) (List.map_congr_left ?_)
  intro a _
  simp only [Function.comp_apply]
  congr 1
  omega

/-- Empty suffix at or beyond the slice length. -/
theorem suffixList_nil (x : BNode) (i : Nat) (h : x.len ≤ i) : suffixList x i = [] := by
  unfold suffixList
  rw [Nat.sub_eq_zero_of_le h]
  rfl

/-- The comparison loop of `bytes.Compare` agrees with the list comparator
on the remaining suffixes. -/
theorem cmpLoop_eq_lexCompare (a b : BNode) :
    ∀ fuel i, i + fuel = min a.len b.len →
      cmpLoop a b i fuel = lexCompare (suffixList a i) (suffixList b i)
  | 0, i, hin => by
    rcases Nat.lt_trichotomy a.len b.len with h | h | h
    · rw [suffixList_nil a i (by omega), suffixList_cons b i (by omega)]
      simp [cmpLoop, lexCompare, h]
    · rw [suffixList_nil a i (by omega), suffixList_nil b i (by omega)]
      simp [cmpLoop, lexCompare, h]
    · rw [suffixList_cons a i (by omega), suffixList_nil b i (by omega)]
      simp [cmpLoop, lexCompare, h, Nat.not_lt.mpr (Nat.le_of_lt h)]
  | fuel + 1, i, hin => by
    rw [suffixList_cons a i (by omega), suffixList_cons b i (by omega)]
    simp only [cmpLoop, lexCompare]
    split_ifs <;>
      first
        | rfl
        | exact cmpLoop_eq_lexCompare a b fuel (i + 1) (by omega)

/-- Slice-level `bytes.Compare` equals the list comparator applied to the
byte lists of the operands. -/
theorem goBytesCompare_eq_lexCompare (a b : BNode) :
    goBytesCompare a b = lexCompare a.toList b.toList := by
  have ha : a.toList = suffixList a 0 := by
    unfold BNode.toList suffixList sliceBytes
    simp
  have hb : b.toList = suffixList b 0 := by
    unfold BNode.toList suffixList sliceBytes
    simp
  rw [ha, hb]
  exact cmpLoop_eq_lexCompare a b (min a.len b.len) 0 (by omega)

/-- Invariant proof for the scan loop of `nodeLookupLE`: given that the
byte lists of the keys at indices `1..n-1` are `ks 1, …, ks (n-1)` and
strictly increase, the loop started at index `i` with accumulator `found`
ends in the greatest index whose key is at most the search key (0 when
there is none). -/
theorem lookupLoop_correct (node : BNode) (key : BNode) (ks : Nat → List Nat) (n : Nat)
    (hk : ∀ i, i < n → 1 ≤ i → (node.getKey? i).map BNode.toList = some (ks i))
    (hsort : ∀ i, i < n → ∀ j, j < n → 1 ≤ i → i < j → bytesLt (ks i) (ks j)) :
    ∀ fuel i found, i + fuel = n → 1 ≤ i →
      (found = 0 ∨ (1 ≤ found ∧ found < i ∧ bytesLe (ks found) key.toList)) →
      (∀ j, 1 ≤ j → j < i → bytesLe (ks j) key.toList → j ≤ found) →
      ∃ r, lookupLoop node key i found fuel = some r ∧
        (r = 0 ∨ (1 ≤ r ∧ r < n ∧ bytesLe (ks r) key.toList)) ∧
        (∀ j, 1 ≤ j → j < n → bytesLe (ks j) key.toList → j ≤ r)
  | 0, i, found, hin, _hi1, hfound, hmax => by
    refine ⟨found, rfl, ?_, ?_⟩
    · rcases hfound with h | ⟨h1, h2, h3⟩
      · exact Or.inl h
      · exact Or.inr ⟨h1, by omega, h3⟩
    · intro j hj1 hjn hjle
      exact hmax j hj1 (by omega) hjle
  | fuel + 1, i, found, hin, hi1, hfound, hmax => by
    have hi_lt : i < n := by omega
    obtain ⟨k, hgk, hkl⟩ := Option.map_eq_some'.mp (hk i hi_lt hi1)
    have hcmp : goBytesCompare k key = lexCompare (ks i) key.toList := by
      rw [goBytesCompare_eq_lexCompare, hkl]
    simp only [lookupLoop, hgk, Option.bind_eq_bind, Option.some_bind, hcmp]
    by_cases hle : lexCompare (ks i) key.toList ≤ 0
    · by_cases hge : lexCompare (ks i) key.toList ≥ 0
      · have hzero : lexCompare (ks i) key.toList = 0 := le_antisymm hle hge
        have hkey : ks i = key.toList := (lexCompare_eq_zero_iff _ _).mp hzero
        rw [if_pos hge, if_pos hle]
        refine ⟨i, rfl, Or.inr ⟨hi1, hi_lt, by simp [bytesLe, hzero]⟩, ?_⟩
        intro j hj1 hjn hjle
        by_contra hji
        have hij : i < j := by omega
        have hlt : bytesLt (ks i) (ks j) := hsort i hi_lt j hjn hi1 hij
        rw [hkey] at hlt
        exact not_bytesLe_of_lt hlt hjle
      · rw [if_neg hge, if_pos hle]
        have hfound' : i = 0 ∨ (1 ≤ i ∧ i < i + 1 ∧ bytesLe (ks i) key.toList) :=
          Or.inr ⟨hi1, by omega, hle⟩
        have hmax' : ∀ j, 1 ≤ j → j < i + 1 → bytesLe (ks j) key.toList → j ≤ i := by
          intro j hj1 hji _
          omega
        exact lookupLoop_correct node key ks n hk hsort fuel (i + 1) i
          (by omega) (by omega) hfound' hmax'
    · have hone : lexCompare (ks i) key.toList = 1 := by
        rcases lexCompare_cases (ks i) key.toList with h | h | h
        · exact absurd (by simp [h]) hle
        · exact absurd (by simp [h]) hle
        · exact h
      have hge : lexCompare (ks i) key.toList ≥ 0 := by simp [hone]
      rw [if_pos hge, if_neg hle]
      refine ⟨found, rfl, ?_, ?_⟩
      · rcases hfound with h | ⟨h1, h2, h3⟩
        · exact Or.inl h
        · exact Or.inr ⟨h1, by omega, h3⟩
      · intro j hj1 hjn hjle
        rcases Nat.lt_trichotomy j i with hj | hj | hj
        · exact hmax j hj1 hj hjle
        · subst hj
          exact absurd hjle (by simp [bytesLe, hone])
        · exfalso
          have hlt_key : bytesLt key.toList (ks i) := by
            have := lexCompare_antisym (ks i) key.toList
            simp only [bytesLt]
            omega
          have hlt : bytesLt (ks i) (ks j) := hsort i hi_lt j hjn hi1 hj
          have hlt_le : bytesLe (ks i) (ks j) := by
            unfold bytesLt at hlt
            simp [bytesLe, hlt]
          have : bytesLt key.toList (ks j) := bytesLt_of_lt_of_le hlt_key hlt_le
          exact not_bytesLe_of_lt this hjle

/-- C8: for every node whose keys at indices `1..nkeys-1` are strictly
increasing, and every search key, `nodeLookupLE` returns the largest index
`i` in `1..nkeys-1` whose key is lexicographically at most the search key,
and 0 when no key at index ≥ 1 is ≤ the search key.  Index 0 (the
sentinel) is never compared: the hypotheses constrain only indices ≥ 1. -/
theorem c8_nodeLookupLE_correct (node : BNode) (key : BNode) (ks : Nat → List Nat)
    (n : Nat) (hn : node.nkeys? = some n)
    (hk : ∀ i, i < n → 1 ≤ i → (node.getKey? i).map BNode.toList = some (ks i))
    (hsort : ∀ i, i < n → ∀ j, j < n → 1 ≤ i → i < j → bytesLt (ks i) (ks j)) :
    ∃ r, nodeLookupLE? node key = some r ∧
      (r = 0 ∨ (1 ≤ r ∧ r < n ∧ bytesLe (ks r) key.toList)) ∧
      (∀ j, 1 ≤ j → j < n → bytesLe (ks j) key.toList → j ≤ r) := by
  unfold nodeLookupLE?
  rw [hn]
  simp only [Option.bind_eq_bind, Option.some_bind]
  cases n with
  | zero =>
    exact ⟨0, rfl, Or.inl rfl, by intro j hj1 hj0 _; omega⟩
  | succ m =>
    exact lookupLoop_correct node key ks (m + 1) hk hsort m 1 0 (by omega) (by omega)
      (Or.inl rfl) (by intro j hj1 hj0 _; omega)

/-- C8 witness: the lookup theorem applied to the concrete three-key node
`c8node` and the one-byte search key 99 ("c"); all hypotheses are
discharged by computation, and the greatest admissible index is 1. -/
theorem c8_nodeLookupLE_witness :
    c8node.nkeys? = some 3 ∧
    (∃ r, nodeLookupLE? c8node key99 = some r ∧
      (r = 0 ∨ (1 ≤ r ∧ r < 3 ∧ bytesLe (c8keys r) key99.toList)) ∧
      (∀ j, 1 ≤ j → j < 3 → bytesLe (c8keys j) key99.toList → j ≤ r)) :=
  ⟨by decide, c8_nodeLookupLE_correct c8node key99 c8keys 3 (by decide)
    (by decide) (by decide)⟩

/-- C1: failing run.  From the empty tree, `Insert("a", 15-byte value)`,
`Insert("b", 2035-byte value)`, `Insert("c", 2035-byte value)` — all keys
in `(0, MAX_KEY_SIZE]` and values within `MAX_VAL_SIZE` — followed by
`Get(keyC)` does not return the inserted value: the third insert splits into
a right page of 4104 > 4096 bytes whose KV blob is truncated by `copy`, and
`Get(keyC)` then slices past the page end (a Go panic, `none` here).  Keys
"a" and "b" remain readable, so the failure is specific to the truncated
entry. -/
theorem c1_get_after_insert_fails :
    c1Get keyC = none ∧
    c1GetLen keyA = some (15, true) ∧
    c1GetLen keyB = some (2035, true) := ⟨rfl, rfl, rfl⟩

/-- C2: refutation of the `nodeSplit3` size postcondition on a node
produced by `treeInsert`, inside the claim's precondition.  Inserting
`keyC` into the stored two-key leaf of `c1AfterTwo` produces a node of
`nbytes()` 4148, at most `2*PAGE_SIZE`; on it `nodeSplit3` does return
between 1 and 3 nodes (here 2), but the right one has `nbytes()` 4104,
exceeding `BTREE_PAGE_SIZE = 4096`: the split-point search of `nodeSplit2`
measures the right half by KV-blob bytes alone (`nbytes() - kvPos(splitIdx)`),
dropping the 4-byte header and the 10 bytes of pointer and offset per
entry.  The consequence clause fails too: the oversized node is published
through the `new` callback, and page 4 of the store after the third insert
is a `BTREE_PAGE_SIZE`-byte buffer whose `nbytes()` reads 4104 — its KV
blob was silently truncated by `copy` when the split built it. -/
theorem c2_split_page_size_bound_fails :
    c2InsertedSize = some 4148 ∧
    4148 ≤ 2 * BTREE_PAGE_SIZE ∧
    c2SplitSizes = some (2, [some 48, some 4104]) ∧
    c2PublishedRightObs = some (BTREE_PAGE_SIZE, some 4104) ∧
    BTREE_PAGE_SIZE < 4104 :=
  ⟨rfl, by norm_num [BTREE_PAGE_SIZE], rfl, rfl, by norm_num [BTREE_PAGE_SIZE]⟩

/-- C3: `KV.Open` wires the free-list `new` callback to `pageNew` — whose
first branch consults `free.Get` whenever `nfree < free.Total()` — and not
to the dedicated append-only `pageAppend`.  On the fixture state the wired
callback fails inside `free.Total()` (the `flnNext` slicing defect, C6),
while `pageAppend` hands out `flushed + nappend = 10` and increments
`nappend` as the claim requires of the free-list allocator. -/
theorem c3_free_new_is_pageNew :
    openFreeNewCallback = pageNew? ∧
    pageNew? c3db (mkBuf BTREE_PAGE_SIZE) = none ∧
    (pageAppend c3db (mkBuf BTREE_PAGE_SIZE)).1 = 10 ∧
    (pageAppend c3db (mkBuf BTREE_PAGE_SIZE)).2.nappend = 1 :=
  ⟨rfl, rfl, rfl, rfl⟩

/-- C4: `FreeList.Update` on a well-formed one-node list (stored total 1,
one free page) fails for both simplest calls — `Update(0, [42])` and
`Update(1, [])` return `none` (a Go panic inside `Total()` reading the next
pointer) — so the claimed new stored total `T - popn + |freed|` is never
written to any head. -/
theorem c4_update_total_never_stored :
    flUpdate? c4cb () 1 0 [42] 100 = none ∧
    flUpdate? c4cb () 1 1 ([] : List Nat) 100 = none := ⟨rfl, rfl⟩

/-- C5: `FreeList.Total` on a head node whose stored total field is 1 does
not return the stored total (the second conjunct shows the field reads 1):
the implementation treats the field as a count of nodes to walk, and the
walk fails on the `flnNext` read (`none`, a Go panic), instead of the O(1)
field read the claim describes. -/
theorem c5_total_is_not_field_read :
    flTotal? flFixtureGet 1 = none ∧
    readU64Range flHeadNode 4 12 = some 1 := ⟨rfl, rfl⟩

/-- C6: `flnNext` evaluates `Uint64(node.data[12:16])` — a 4-byte slice
passed to an 8-byte read, a Go panic for every node buffer (`none` here) —
and `flnSetHeader` fails the same way writing the next field, even though
the buffer has 8 readable bytes at offset 12 (third conjunct). -/
theorem c6_flnNext_slice_too_short :
    flnNext? (mkBuf BTREE_PAGE_SIZE) = none ∧
    flnSetHeader? (mkBuf BTREE_PAGE_SIZE) 0 0 = none ∧
    readU64 (mkBuf BTREE_PAGE_SIZE) 12 = some 0 := ⟨rfl, rfl, rfl⟩

/-- C7 counterexample: after `pageDel(5)`, `pageGet(5)` returns the nil
tombstone node (length 0) rather than falling through to the mmap-resolved
page (length 4096 with byte content 7). -/
theorem c7_pageGet_returns_tombstone :
    ((pageGet? (pageDel c7db 5) 5).map BNode.len) = some 0 ∧
    ((pageGetMapped? (pageDel c7db 5).chunks 5).map BNode.len) = some BTREE_PAGE_SIZE ∧
    ((pageGetMapped? (pageDel c7db 5).chunks 5).map fun b => b.data 0) = some 7 :=
  ⟨rfl, rfl, rfl⟩

/-- C7 amended: `pageGet` returns the buffered image when `updates` holds
any entry for the page — a live image, or the nil tombstone written by
`pageDel`, which is returned as the empty node — and resolves through the
mmap chunks only when `updates` has no entry at all. -/
theorem c7_pageGet_update_semantics (db : KV) (ptr : Nat) :
    (db.updates ptr = none → pageGet? db ptr = pageGetMapped? db.chunks ptr) ∧
    (∀ img, db.updates ptr = some (some img) → pageGet? db ptr = some img) ∧
    (pageGet? (pageDel db ptr) ptr = some nilBNode) := by
  refine ⟨?_, ?_, ?_⟩
  · intro h
    simp [pageGet?, h]
  · intro img h
    simp [pageGet?, h]
  · simp [pageGet?, pageDel]

/-- C7 witness: the amended theorem applied at the concrete fixture — a
missing entry falls through to the mmap, a `pageUse` image is returned,
and a `pageDel` tombstone yields the nil node. -/
theorem c7_pageGet_update_semantics_witness :
    pageGet? c7db 5 = pageGetMapped? c7db.chunks 5 ∧
    pageGet? (pageUse c7db 5 flHeadNode) 5 = some flHeadNode ∧
    pageGet? (pageDel c7db 5) 5 = some nilBNode :=
  ⟨(c7_pageGet_update_semantics c7db 5).1 rfl,
   (c7_pageGet_update_semantics (pageUse c7db 5 flHeadNode) 5).2.1 flHeadNode rfl,
   (c7_pageGet_update_semantics c7db 5).2.2⟩

/-- C9: `masterLoad` alone accepts the well-formed one-page file (root 0,
used 1, free head 0) and initializes `flushed = 1` on an empty file; but
`KV.Open` fails before reaching it — the free-list head initialization
calls `flnSetHeader`, which panics for every buffer (C6) — so `Open` fails
on the empty file and on the well-formed file alike (and rejects a
size-not-multiple file through `mmapInit`). -/
theorem c9_open_fails_before_masterLoad :
    c9MasterCheck = some (0, 1, 0) ∧
    masterLoad? 0 ⟨0, fun _ => 0⟩ = some (0, 1, 0) ∧
    kvOpen? 4096 goodFile = none ∧
    kvOpen? 0 (fun _ => 0) = none ∧
    kvOpen? 100 (fun _ => 0) = none := ⟨rfl, rfl, rfl, rfl, rfl⟩

end DB
